import Mathlib

/-!
Verification of the class-definition sync pipeline
(`crates/pathfinder/src/sync/class_definitions.rs`).

Machine integers are modelled as `Nat` (block numbers never overflow in the
source, hashes are opaque field elements compared only for equality), byte
buffers as `List Nat`, hash sets of class hashes as `Finset Nat`, and hash
maps as association lists. Streams are modelled as the finite lists of items
they yield; panics are modelled as `Option.none` results.
-/

deriving instance DecidableEq for Except

namespace ClassSync

/-- Peer-tagged payload, after `p2p::PeerData`. The peer id is opaque. -/
structure PeerData (A : Type) where
  peer : Nat
  data : A
  deriving DecidableEq, Repr

/-- Class definition bytes, after `ClassDefinition` in `class_definitions.rs`. -/
inductive ClassDefinition where
  | cairo (bytes : List Nat)
  | sierra (bytes : List Nat)
  deriving DecidableEq, Repr

/-- A hash-verified class, after `Class` in `class_definitions.rs`. -/
structure Class where
  block_number : Nat
  hash : Nat
  definition : ClassDefinition
  deriving DecidableEq, Repr

/-- Stream errors, after `SyncError`: the peer-attributed `UnexpectedClass`
variant, and anyhow-propagated errors folded into `fatal` with their
context message. -/
inductive SyncError where
  | unexpectedClass (peer : Nat)
  | fatal (msg : String)
  deriving DecidableEq, Repr

/-- A chunk of peer-delivered classes, after `Vec<PeerData<Class>>`. -/
abbrev Chunk := List (PeerData Class)

/-- The item type of the `expected_declarations` input stream:
`anyhow::Result<(BlockNumber, HashSet<ClassHash>)>`. -/
abbrev ExpectedItem := Except String (Nat × Finset Nat)

/-- The item type of the output stream of `verify_declared_at`. -/
abbrev OutItem := Except SyncError (PeerData Class)

/-- The loop of `verify_declared_at` fused with `ClassDechunker::next`.
State: `declaredAt`/`declared` are the current expected entry
(`declared_at`, `declared` in the source), `expected` and `classes` are the
remaining input streams, and `q` is the dechunker buffer. Returns `none`
for the `expect("Chunk not to be empty")` panic on an empty chunk, otherwise
`some` of the list of items sent to the output stream. -/
def verifyAux (declaredAt : Nat) (declared : Finset Nat) (expected : List ExpectedItem)
    (classes : List (Except SyncError Chunk)) (q : Chunk) : Option (List OutItem) :=
  if declared = ∅ then
    match expected with
    | [] => some []
    | .error e :: _ => some [.error (.fatal e)]
    | .ok (b, s) :: rest => verifyAux b s rest classes q
  else
    match q with
    | c :: q' =>
      if declaredAt ≠ c.data.block_number then
        some [.error (.unexpectedClass c.peer)]
      else if c.data.hash ∈ declared then
        (verifyAux declaredAt (declared.erase c.data.hash) expected classes q').map
          (fun out => .ok c :: out)
      else
        some [.error (.unexpectedClass c.peer)]
    | [] =>
      match classes with
      | [] => some []
      | .error e :: _ => some [.error e]
      | .ok [] :: _ => none
      | .ok (c :: q') :: cs =>
        if declaredAt ≠ c.data.block_number then
          some [.error (.unexpectedClass c.peer)]
        else if c.data.hash ∈ declared then
          (verifyAux declaredAt (declared.erase c.data.hash) expected cs q').map
            (fun out => .ok c :: out)
        else
          some [.error (.unexpectedClass c.peer)]
  termination_by (expected.length, classes.length, q.length)

/-- The declaration matcher `verify_declared_at`: starts with an exhausted
current entry so the first loop iteration pulls from `expected`, and an empty
dechunker buffer. -/
def verify_declared_at (expected : List ExpectedItem)
    (classes : List (Except SyncError Chunk)) : Option (List OutItem) :=
  verifyAux 0 ∅ expected classes []

/-- The inner matching loop of `verify_declared_at` for one expected entry,
specialised to a dechunked (flat) class list: consumes classes while the
expected set `s` is non-empty. Returns the emitted items and `some` of the
unconsumed classes if the set was drained, or `none` if the run terminates
(class list exhausted or an error emitted). -/
def matchBlock (b : Nat) (s : Finset Nat) (cs : List (PeerData Class)) :
    List OutItem × Option (List (PeerData Class)) :=
  if s = ∅ then ([], some cs)
  else
    match cs with
    | [] => ([], none)
    | c :: rest =>
      if b ≠ c.data.block_number then ([.error (.unexpectedClass c.peer)], none)
      else if c.data.hash ∈ s then
        let r := matchBlock b (s.erase c.data.hash) rest
        (.ok c :: r.1, r.2)
      else ([.error (.unexpectedClass c.peer)], none)

/-- The outer loop of `verify_declared_at` over the expected stream,
specialised to a dechunked class list. -/
def flatRun : List ExpectedItem → List (PeerData Class) → List OutItem
  | [], _ => []
  | .error e :: _, _ => [.error (.fatal e)]
  | .ok (b, s) :: rest, cs =>
    let r := matchBlock b s cs
    match r.2 with
    | none => r.1
    | some cs' => r.1 ++ flatRun rest cs'

/-- `flatRun` resumed from a partially drained current entry `(b, s)`. -/
def flatFrom (b : Nat) (s : Finset Nat) (expected : List ExpectedItem)
    (cs : List (PeerData Class)) : List OutItem :=
  let r := matchBlock b s cs
  match r.2 with
  | none => r.1
  | some cs' => r.1 ++ flatRun expected cs'

/-- Number of successfully emitted items whose class carries block number `b`
and class hash `h`. -/
def okCount (b h : Nat) (out : List OutItem) : Nat :=
  out.countP (fun r =>
    match r with
    | .ok c => decide (c.data.block_number = b) && decide (c.data.hash = h)
    | .error _ => false)

/-- Number of entries of a pure expected stream that declare hash `h` at
block `b`. -/
def declCount (b h : Nat) (E : List (Nat × Finset Nat)) : Nat :=
  E.countP (fun e => decide (e.1 = b) && decide (h ∈ e.2))

/-- Modelled from the spec: `Storage::declared_classes_at` of the storage
collaborator, as a map from block number to the optional list of class hashes
declared there (`none` models a missing block header). -/
abbrev DeclaredAt := Nat → Option (List Nat)

/-- The body of the `while start <= stop` loop of
`expected_declarations_stream`, over the explicit list of block numbers it
visits: a missing header emits the contexted error and stops, an empty
declared set is skipped, a non-empty one is emitted as a `HashSet`. -/
def edsLoop (db : DeclaredAt) : List Nat → List ExpectedItem
  | [] => []
  | b :: rest =>
    match db b with
    | none => [.error "Block header not found"]
    | some l =>
      (if l.toFinset = ∅ then [] else [.ok (b, l.toFinset)]) ++ edsLoop db rest

/-- The stream `expected_declarations_stream` over the block range
`start..=stop`. -/
def expected_declarations_stream (db : DeclaredAt) (start stop : Nat) :
    List ExpectedItem :=
  edsLoop db (List.range' start (stop + 1 - start))

/-- A compiled class definition, after `CompiledClassDefinition`. -/
inductive CompiledClassDefinition where
  | cairo (bytes : List Nat)
  | sierra (sierra_definition casm_definition : List Nat)
  deriving DecidableEq, Repr

/-- A compiled class, after `CompiledClass`. -/
structure CompiledClass where
  block_number : Nat
  hash : Nat
  definition : CompiledClassDefinition
  deriving DecidableEq, Repr

/-- The compiler stage `CompileSierraToCasm::map`, with the external
collaborators as parameters: `compile_to_casm` is
`pathfinder_compiler::compile_to_casm` and `pending_casm_by_hash` is the
gateway fetch keyed by class hash. Cairo definitions pass through; Sierra
definitions are compiled locally, falling back to the gateway on failure,
whose error is surfaced if it also fails. -/
def compile_sierra_to_casm
    (compile_to_casm : List Nat → Except String (List Nat))
    (pending_casm_by_hash : Nat → Except String (List Nat))
    (input : Class) : Except String CompiledClass :=
  match input.definition with
  | .cairo c => .ok ⟨input.block_number, input.hash, .cairo c⟩
  | .sierra sierra_definition =>
    match compile_to_casm sierra_definition with
    | .ok casm_definition =>
      .ok ⟨input.block_number, input.hash, .sierra sierra_definition casm_definition⟩
    | .error _ =>
      match pending_casm_by_hash input.hash with
      | .ok casm_definition =>
        .ok ⟨input.block_number, input.hash, .sierra sierra_definition casm_definition⟩
      | .error e => .error e

/-- A parsed class layout, after `GwClassDefinition`: the parsed fields fed to
the hash algorithms are abstracted to an opaque payload. -/
inductive GwLayout where
  | cairo (fields : List Nat)
  | sierra (fields : List Nat)
  deriving DecidableEq, Repr

/-- A layout-verified class, after `ClassWithLayout`. -/
structure ClassWithLayout where
  block_number : Nat
  definition : ClassDefinition
  layout : GwLayout
  deriving DecidableEq, Repr

/-- The batch hash-computation stage `compute_hash`, with the external hash
algorithms `compute_cairo_class_hash` and `compute_sierra_class_hash` as
parameters. The source unwraps each hash result with
`expect("todo fixme add error type")`, so a failing hash computation panics:
the panic is modelled as `none`; on success the batch is returned in order. -/
def compute_hash (cairoHash sierraHash : List Nat → Except String Nat)
    (batch : List (PeerData ClassWithLayout)) : Option (List (PeerData Class)) :=
  batch.mapM (fun pd =>
    match
      (match pd.data.layout with
       | .cairo f => cairoHash f
       | .sierra f => sierraHash f) with
    | .ok h => some ⟨pd.peer, ⟨pd.data.block_number, h, pd.data.definition⟩⟩
    | .error _ => none)

/-- Modelled from the spec: `DeclaredClasses` of
`pathfinder_common::state_update`, a set of legacy (cairo) class hashes and a
map from Sierra class hash to casm hash; the `HashSet` is modelled as a
duplicate-free list and the `HashMap` as an association list. -/
structure DeclaredClasses where
  cairo : List Nat
  sierra : List (Nat × Nat)
  deriving DecidableEq, Repr

/-- Removal from a hash map modelled on an association list: returns the value
stored under the first occurrence of the key, if any, and the list with that
entry removed (`HashMap::remove`). -/
def mapRemove : List (Nat × Nat) → Nat → Option Nat × List (Nat × Nat)
  | [], _ => (none, [])
  | (k, v) :: rest, key =>
    if k = key then (some v, rest)
    else
      let r := mapRemove rest key
      (r.1, (k, v) :: r.2)

/-- The removal loop of `VerifyClassHashes::map`: for each input class, remove
its hash from the declared cairo set or sierra map; `none` models the early
`ClassDefinitionsDeclarationsMismatch` return when an entry is absent. -/
def vchLoop (decl : DeclaredClasses) : List CompiledClass → Option DeclaredClasses
  | [] => some decl
  | c :: rest =>
    match c.definition with
    | .cairo _ =>
      if c.hash ∈ decl.cairo then
        vchLoop ⟨decl.cairo.erase c.hash, decl.sierra⟩ rest
      else
        none
    | .sierra _ _ =>
      let r := mapRemove decl.sierra c.hash
      match r.1 with
      | none => none
      | some _ => vchLoop ⟨decl.cairo, r.2⟩ rest

/-- The batch matcher `VerifyClassHashes::map`, over the one `DeclaredClasses`
value consumed from its declarations stream. The source returns the unit error
`SyncError2::ClassDefinitionsDeclarationsMismatch` in both failure paths; in
the end-of-batch path it additionally traces the leftover cairo hashes chained
with the leftover sierra map values (each rewrapped as a `ClassHash`) as the
`missing` diagnostic, modelled here as the optional error payload. -/
def verify_class_hashes (decl : DeclaredClasses) (input : List CompiledClass) :
    Except (Option (List Nat)) (List CompiledClass) :=
  match vchLoop decl input with
  | none => .error none
  | some left =>
    if left.cairo = [] ∧ left.sierra = [] then .ok input
    else .error (some (left.cairo ++ left.sierra.map (fun p => p.2)))

/-- The diagnostic list the spec sentence describes: the identifiers of the
unmatched entries themselves, i.e. the leftover cairo hashes and the leftover
sierra map keys. Stated from the spec for comparison with the source's
diagnostic. -/
def specUnmatchedIdentifiers (left : DeclaredClasses) : List Nat :=
  left.cairo ++ left.sierra.map (fun p => p.1)

/-- Modelled from the spec: the relevant tables of the Storage collaborator,
as association lists keyed by class hash. `casm_hashes` is the pre-existing
class-hash to casm-hash mapping established by the adjacent header pipeline. -/
structure Db where
  cairo_defs : List (Nat × List Nat)
  sierra_defs : List (Nat × (List Nat × Nat × List Nat))
  casm_hashes : List (Nat × Nat)
  deriving DecidableEq, Repr

/-- Modelled from the spec: an upsert on an association list. -/
def upsert {β : Type} (l : List (Nat × β)) (k : Nat) (v : β) : List (Nat × β) :=
  (k, v) :: l.filter (fun p => p.1 ≠ k)

/-- Modelled from the spec: `Transaction::update_cairo_class`. -/
def update_cairo_class (tx : Db) (hash : Nat) (definition : List Nat) : Db :=
  { tx with cairo_defs := upsert tx.cairo_defs hash definition }

/-- Modelled from the spec: `Transaction::casm_hash`, the lookup of the
pre-existing compiled-identifier mapping. -/
def casm_hash (tx : Db) (hash : Nat) : Option Nat :=
  tx.casm_hashes.lookup hash

/-- Modelled from the spec: `Transaction::update_sierra_class`. -/
def update_sierra_class (tx : Db) (hash : Nat) (sierra_definition : List Nat)
    (casm : Nat) (casm_definition : List Nat) : Db :=
  { tx with sierra_defs := upsert tx.sierra_defs hash (sierra_definition, casm, casm_definition) }

/-- The element loop of `persist`: applies each write to the open transaction
state, failing with the contexted error when a Sierra class has no
pre-existing casm-hash mapping. -/
def persistLoop (tx : Db) : List CompiledClass → Except String Db
  | [] => .ok tx
  | c :: rest =>
    match c.definition with
    | .cairo definition => persistLoop (update_cairo_class tx c.hash definition) rest
    | .sierra sierra_definition casm_definition =>
      match casm_hash tx c.hash with
      | none => .error "Casm hash not found"
      | some casm =>
        persistLoop (update_sierra_class tx c.hash sierra_definition casm casm_definition) rest

/-- The batch persister `persist`: one transaction for the whole batch,
committed only after every element succeeded; the result is the block number
of the batch's last element. Dropping the transaction on failure rolls it
back, so the database component of the result is the pre-call state on every
error path. -/
def persist (db : Db) (classes : List (PeerData CompiledClass)) :
    Except String Nat × Db :=
  match classes.getLast? with
  | none => (.error "No class definitions to persist", db)
  | some last =>
    match persistLoop db (classes.map (fun x => x.data)) with
    | .error e => (.error e, db)
    | .ok tx => (.ok last.data.block_number, tx)

/-- The maximum block number among a batch's elements. -/
def batchMax (classes : List (PeerData CompiledClass)) : Nat :=
  (classes.map (fun c => c.data.block_number)).foldl Nat.max 0

/-- The database holds a definition entry for the given compiled class, in the
table matching its variant. -/
def hasClassDef (db : Db) (c : CompiledClass) : Bool :=
  match c.definition with
  | .cairo _ => (db.cairo_defs.lookup c.hash).isSome
  | .sierra _ _ => (db.sierra_defs.lookup c.hash).isSome

/-- The item `expected_declarations_stream` emits for one block whose header
is present: skipped (`none`) when no classes are declared there. -/
def edsItem (db : DeclaredAt) (b : Nat) : Option ExpectedItem :=
  match db b with
  | none => none
  | some l => if l.toFinset = ∅ then none else some (.ok (b, l.toFinset))

/-- The block number of a successfully emitted expected item. -/
def okBlock : ExpectedItem → Option Nat
  | .ok (b, _) => some b
  | .error _ => none

/-- The class hashes of the legacy (cairo) members of a batch, in batch
order. -/
def cairoHashes (input : List CompiledClass) : List Nat :=
  (input.filter (fun c =>
    match c.definition with
    | .cairo _ => true
    | .sierra _ _ => false)).map (fun c => c.hash)

/-- The class hashes of the Sierra members of a batch, in batch order. -/
def sierraHashes (input : List CompiledClass) : List Nat :=
  (input.filter (fun c =>
    match c.definition with
    | .cairo _ => false
    | .sierra _ _ => true)).map (fun c => c.hash)

end ClassSync

namespace ClassSync

theorem matchBlock_empty (b : Nat) {s : Finset Nat} (hs : s = ∅) (cs : List (PeerData Class)) :
    matchBlock b s cs = ([], some cs) := by
  rw [matchBlock.eq_def, if_pos hs]

theorem matchBlock_exhausted (b : Nat) {s : Finset Nat} (hs : s ≠ ∅) :
    matchBlock b s [] = ([], none) := by
  rw [matchBlock.eq_def, if_neg hs]

theorem matchBlock_mismatch {b : Nat} {s : Finset Nat} (hs : s ≠ ∅)
    {c : PeerData Class} (hb : b ≠ c.data.block_number) (rest : List (PeerData Class)) :
    matchBlock b s (c :: rest) = ([.error (.unexpectedClass c.peer)], none) := by
  rw [matchBlock.eq_def, if_neg hs]
  simp [hb]

theorem matchBlock_hit {b : Nat} {s : Finset Nat} (hs : s ≠ ∅)
    {c : PeerData Class} (hb : b = c.data.block_number) (hm : c.data.hash ∈ s)
    (rest : List (PeerData Class)) :
    matchBlock b s (c :: rest) =
      (.ok c :: (matchBlock b (s.erase c.data.hash) rest).1,
        (matchBlock b (s.erase c.data.hash) rest).2) := by
  rw [matchBlock.eq_def, if_neg hs]
  simp [hb, hm]

theorem matchBlock_miss {b : Nat} {s : Finset Nat} (hs : s ≠ ∅)
    {c : PeerData Class} (hb : b = c.data.block_number) (hm : c.data.hash ∉ s)
    (rest : List (PeerData Class)) :
    matchBlock b s (c :: rest) = ([.error (.unexpectedClass c.peer)], none) := by
  rw [matchBlock.eq_def, if_neg hs]
  simp [hb, hm]

theorem flatRun_nil (cs : List (PeerData Class)) : flatRun [] cs = [] := rfl

theorem flatRun_error (e : String) (rest : List ExpectedItem) (cs : List (PeerData Class)) :
    flatRun (.error e :: rest) cs = [.error (.fatal e)] := rfl

theorem flatRun_ok (b : Nat) (s : Finset Nat) (rest : List ExpectedItem)
    (cs : List (PeerData Class)) :
    flatRun (.ok (b, s) :: rest) cs = flatFrom b s rest cs := rfl

theorem flatFrom_empty (b : Nat) {s : Finset Nat} (hs : s = ∅) (E : List ExpectedItem)
    (cs : List (PeerData Class)) : flatFrom b s E cs = flatRun E cs := by
  simp [flatFrom, matchBlock_empty b hs]

theorem flatFrom_exhausted (b : Nat) {s : Finset Nat} (hs : s ≠ ∅) (E : List ExpectedItem) :
    flatFrom b s E [] = [] := by
  simp [flatFrom, matchBlock_exhausted b hs]

theorem flatFrom_mismatch {b : Nat} {s : Finset Nat} (hs : s ≠ ∅) (E : List ExpectedItem)
    {c : PeerData Class} (hb : b ≠ c.data.block_number) (rest : List (PeerData Class)) :
    flatFrom b s E (c :: rest) = [.error (.unexpectedClass c.peer)] := by
  simp [flatFrom, matchBlock_mismatch hs hb rest]

theorem flatFrom_hit {b : Nat} {s : Finset Nat} (hs : s ≠ ∅) (E : List ExpectedItem)
    {c : PeerData Class} (hb : b = c.data.block_number) (hm : c.data.hash ∈ s)
    (rest : List (PeerData Class)) :
    flatFrom b s E (c :: rest) = .ok c :: flatFrom b (s.erase c.data.hash) E rest := by
  simp only [flatFrom, matchBlock_hit hs hb hm rest]
  cases hr : (matchBlock b (s.erase c.data.hash) rest).2 <;> simp [hr]

theorem flatFrom_miss {b : Nat} {s : Finset Nat} (hs : s ≠ ∅) (E : List ExpectedItem)
    {c : PeerData Class} (hb : b = c.data.block_number) (hm : c.data.hash ∉ s)
    (rest : List (PeerData Class)) :
    flatFrom b s E (c :: rest) = [.error (.unexpectedClass c.peer)] := by
  simp [flatFrom, matchBlock_miss hs hb hm rest]

theorem verifyAux_bridge (N : Nat) : ∀ (b : Nat) (s : Finset Nat) (E : List ExpectedItem)
    (chunkss : List Chunk) (q : Chunk),
    E.length + chunkss.length + (chunkss.map List.length).sum + q.length ≤ N →
    (∀ ch ∈ chunkss, ch ≠ []) →
    verifyAux b s E (chunkss.map Except.ok) q = some (flatFrom b s E (q ++ chunkss.flatten)) := by
  induction N with
  | zero =>
    intro b s E chunkss q hN hne
    have hE : E = [] := by cases E <;> simp_all
    have hc : chunkss = [] := by cases chunkss <;> simp_all
    have hq : q = [] := by cases q <;> simp_all
    subst hE; subst hc; subst hq
    rw [verifyAux.eq_def]
    by_cases hs : s = ∅
    · rw [if_pos hs]
      simp [flatFrom_empty _ hs, flatRun_nil]
    · rw [if_neg hs]
      simp [flatFrom_exhausted _ hs]
  | succ n ih =>
    intro b s E chunkss q hN hne
    rw [verifyAux.eq_def]
    by_cases hs : s = ∅
    · rw [if_pos hs]
      cases E with
      | nil => simp [flatFrom_empty _ hs, flatRun_nil]
      | cons e rest =>
        cases e with
        | error msg => simp [flatFrom_empty _ hs, flatRun_error]
        | ok p =>
          obtain ⟨b', s'⟩ := p
          rw [flatFrom_empty _ hs, flatRun_ok]
          exact ih b' s' rest chunkss q (by simp at hN ⊢; omega) hne
    · rw [if_neg hs]
      cases q with
      | cons c q' =>
        simp only [List.cons_append]
        by_cases hb : b ≠ c.data.block_number
        · rw [if_pos hb, flatFrom_mismatch hs E hb]
        · rw [if_neg hb]
          push_neg at hb
          by_cases hm : c.data.hash ∈ s
          · rw [if_pos hm,
              ih b (s.erase c.data.hash) E chunkss q' (by simp at hN ⊢; omega) hne,
              flatFrom_hit hs E hb hm]
            rfl
          · rw [if_neg hm, flatFrom_miss hs E hb hm]
      | nil =>
        cases chunkss with
        | nil => simp [flatFrom_exhausted _ hs]
        | cons ch rest =>
          have hch : ch ≠ [] := hne ch (by simp)
          cases ch with
          | nil => exact absurd rfl hch
          | cons c q' =>
            have hne' : ∀ x ∈ rest, x ≠ [] := fun x hx => hne x (by simp [hx])
            simp only [List.map_cons, List.nil_append, List.flatten_cons, List.cons_append]
            by_cases hb : b ≠ c.data.block_number
            · rw [if_pos hb, flatFrom_mismatch hs E hb]
            · rw [if_neg hb]
              push_neg at hb
              by_cases hm : c.data.hash ∈ s
              · rw [if_pos hm,
                  ih b (s.erase c.data.hash) E rest q' (by simp at hN ⊢; omega) hne',
                  flatFrom_hit hs E hb hm]
                rfl
              · rw [if_neg hm, flatFrom_miss hs E hb hm]

end ClassSync

namespace ClassSync

theorem okCount_nil (bb hh : Nat) : okCount bb hh [] = 0 := rfl

theorem okCount_error_cons (bb hh : Nat) (e : SyncError) (out : List OutItem) :
    okCount bb hh (.error e :: out) = okCount bb hh out := by
  simp [okCount, List.countP_cons]

theorem okCount_ok_cons (bb hh : Nat) (c : PeerData Class) (out : List OutItem) :
    okCount bb hh (.ok c :: out) =
      okCount bb hh out +
        (if c.data.block_number = bb ∧ c.data.hash = hh then 1 else 0) := by
  by_cases h : c.data.block_number = bb ∧ c.data.hash = hh
  · simp [okCount, List.countP_cons, h.1, h.2]
  · rw [if_neg h]
    rcases not_and_or.mp h with h1 | h1 <;> simp [okCount, List.countP_cons, h1]

theorem declCount_cons (bb hh b1 : Nat) (s1 : Finset Nat) (E : List (Nat × Finset Nat)) :
    declCount bb hh ((b1, s1) :: E) =
      declCount bb hh E + (if b1 = bb ∧ hh ∈ s1 then 1 else 0) := by
  by_cases h : b1 = bb ∧ hh ∈ s1
  · simp [declCount, List.countP_cons, h.1, h.2]
  · rw [if_neg h]
    rcases not_and_or.mp h with h1 | h1 <;> simp [declCount, List.countP_cons, h1]

theorem flatFrom_count (N : Nat) : ∀ (b : Nat) (s : Finset Nat)
    (E : List (Nat × Finset Nat)) (cs : List (PeerData Class)) (bb hh : Nat),
    E.length + cs.length ≤ N →
    okCount bb hh (flatFrom b s (E.map Except.ok) cs) ≤
      (if b = bb ∧ hh ∈ s then 1 else 0) + declCount bb hh E := by
  induction N with
  | zero =>
    intro b s E cs bb hh hN
    have hE : E = [] := by cases E <;> simp_all
    have hc : cs = [] := by cases cs <;> simp_all
    subst hE; subst hc
    by_cases hs : s = ∅
    · simp [flatFrom_empty _ hs, flatRun_nil, okCount_nil]
    · simp [flatFrom_exhausted _ hs, okCount_nil]
  | succ n ih =>
    intro b s E cs bb hh hN
    by_cases hs : s = ∅
    · have h0 : (if b = bb ∧ hh ∈ s then 1 else 0) = 0 := by
        rw [if_neg]
        rintro ⟨-, hmem⟩
        rw [hs] at hmem
        exact absurd hmem (Finset.not_mem_empty hh)
      rw [flatFrom_empty _ hs]
      cases E with
      | nil => simp [flatRun_nil, okCount_nil]
      | cons e rest =>
        obtain ⟨b', s'⟩ := e
        rw [List.map_cons, flatRun_ok, declCount_cons]
        have hih := ih b' s' rest cs bb hh (by simp at hN ⊢; omega)
        omega
    · cases cs with
      | nil => simp [flatFrom_exhausted _ hs, okCount_nil]
      | cons c rest =>
        by_cases hb : b = c.data.block_number
        · by_cases hm : c.data.hash ∈ s
          · rw [flatFrom_hit hs _ hb hm, okCount_ok_cons]
            have hih := ih b (s.erase c.data.hash) E rest bb hh (by simp at hN ⊢; omega)
            by_cases hcond : c.data.block_number = bb ∧ c.data.hash = hh
            · have hb' : b = bb := hb.trans hcond.1
              have hne : hh ∉ s.erase c.data.hash := by
                rw [← hcond.2]
                exact Finset.not_mem_erase _ _
              have h2 : (if b = bb ∧ hh ∈ s.erase c.data.hash then 1 else 0) = 0 :=
                if_neg (fun h => hne h.2)
              have h1 : (if b = bb ∧ hh ∈ s then 1 else 0) = 1 :=
                if_pos ⟨hb', hcond.2 ▸ hm⟩
              rw [if_pos hcond]
              omega
            · rw [if_neg hcond]
              have hmono : (if b = bb ∧ hh ∈ s.erase c.data.hash then 1 else 0) ≤
                  (if b = bb ∧ hh ∈ s then 1 else 0) := by
                by_cases h2 : b = bb ∧ hh ∈ s.erase c.data.hash
                · rw [if_pos h2, if_pos ⟨h2.1, Finset.mem_of_mem_erase h2.2⟩]
                · rw [if_neg h2]
                  exact Nat.zero_le _
              omega
          · rw [flatFrom_miss hs _ hb hm, okCount_error_cons, okCount_nil]
            omega
        · rw [flatFrom_mismatch hs _ hb, okCount_error_cons, okCount_nil]
          omega

end ClassSync

namespace ClassSync

theorem flatFrom_shape (N : Nat) : ∀ (b : Nat) (s : Finset Nat)
    (E : List (Nat × Finset Nat)) (cs : List (PeerData Class)),
    E.length + cs.length ≤ N →
    ∃ n, n ≤ cs.length ∧
      (flatFrom b s (E.map Except.ok) cs = (cs.take n).map Except.ok ∨
       ∃ hn : n < cs.length,
         flatFrom b s (E.map Except.ok) cs =
           (cs.take n).map Except.ok ++
             [.error (.unexpectedClass (cs.get ⟨n, hn⟩).peer)]) := by
  induction N with
  | zero =>
    intro b s E cs hN
    have hE : E = [] := by cases E <;> simp_all
    have hc : cs = [] := by cases cs <;> simp_all
    subst hE; subst hc
    refine ⟨0, Nat.le_refl 0, Or.inl ?_⟩
    by_cases hs : s = ∅
    · simp [flatFrom_empty _ hs, flatRun_nil]
    · simp [flatFrom_exhausted _ hs]
  | succ n ih =>
    intro b s E cs hN
    by_cases hs : s = ∅
    · rw [flatFrom_empty _ hs]
      cases E with
      | nil => exact ⟨0, Nat.zero_le _, Or.inl (by simp [flatRun_nil])⟩
      | cons e rest =>
        obtain ⟨b', s'⟩ := e
        rw [List.map_cons, flatRun_ok]
        exact ih b' s' rest cs (by simp at hN ⊢; omega)
    · cases cs with
      | nil => exact ⟨0, Nat.le_refl 0, Or.inl (by simp [flatFrom_exhausted _ hs])⟩
      | cons c rest =>
        by_cases hb : b = c.data.block_number
        · by_cases hm : c.data.hash ∈ s
          · obtain ⟨m, hm1, hm2⟩ :=
              ih b (s.erase c.data.hash) E rest (by simp at hN ⊢; omega)
            refine ⟨m + 1, by simpa using Nat.succ_le_succ hm1, ?_⟩
            rcases hm2 with h | ⟨hlt, h⟩
            · exact Or.inl (by rw [flatFrom_hit hs _ hb hm, h]; simp)
            · refine Or.inr ⟨by simpa using Nat.succ_lt_succ hlt, ?_⟩
              rw [flatFrom_hit hs _ hb hm, h]
              simp
          · exact ⟨0, Nat.zero_le _,
              Or.inr ⟨by simp, by rw [flatFrom_miss hs _ hb hm]; simp⟩⟩
        · exact ⟨0, Nat.zero_le _,
            Or.inr ⟨by simp, by rw [flatFrom_mismatch hs _ hb]; simp⟩⟩

theorem flatFrom_clean_front (N : Nat) : ∀ (b : Nat) (s : Finset Nat)
    (E : List ExpectedItem) (p suffix : List (PeerData Class)),
    E.length + p.length ≤ N →
    flatFrom b s E (p ++ suffix) = (p ++ suffix).map Except.ok →
    flatFrom b s E p = p.map Except.ok := by
  induction N with
  | zero =>
    intro b s E p suffix hN hclean
    have hE : E = [] := by cases E <;> simp_all
    have hp : p = [] := by cases p <;> simp_all
    subst hE; subst hp
    by_cases hs : s = ∅
    · simp [flatFrom_empty _ hs, flatRun_nil]
    · simp [flatFrom_exhausted _ hs]
  | succ n ih =>
    intro b s E p suffix hN hclean
    by_cases hs : s = ∅
    · rw [flatFrom_empty _ hs] at hclean ⊢
      cases E with
      | nil =>
        rw [flatRun_nil] at hclean ⊢
        have : p ++ suffix = [] := by
          cases hx : p ++ suffix with
          | nil => rfl
          | cons y ys => rw [hx] at hclean; simp at hclean
        have hp : p = [] := by
          cases p with
          | nil => rfl
          | cons z zs => simp at this
        simp [hp]
      | cons e rest =>
        cases e with
        | error msg =>
          rw [flatRun_error] at hclean
          exfalso
          cases hx : p ++ suffix with
          | nil => rw [hx] at hclean; simp at hclean
          | cons y ys => rw [hx] at hclean; simp at hclean
        | ok pr =>
          obtain ⟨b', s'⟩ := pr
          rw [flatRun_ok] at hclean ⊢
          exact ih b' s' rest p suffix (by simp at hN ⊢; omega) hclean
    · cases p with
      | nil => simp [flatFrom_exhausted _ hs]
      | cons c p' =>
        rw [List.cons_append] at hclean
        by_cases hb : b = c.data.block_number
        · by_cases hm : c.data.hash ∈ s
          · rw [flatFrom_hit hs _ hb hm] at hclean
            simp only [List.map_cons] at hclean
            have htail := (List.cons.injEq _ _ _ _ ▸ hclean).2
            rw [flatFrom_hit hs _ hb hm, List.map_cons]
            have := ih b (s.erase c.data.hash) E p' suffix (by simp at hN ⊢; omega) htail
            rw [this]
          · rw [flatFrom_miss hs _ hb hm] at hclean
            simp at hclean
        · rw [flatFrom_mismatch hs _ hb] at hclean
          simp at hclean

end ClassSync

namespace ClassSync

theorem verify_declared_at_flat (E : List ExpectedItem) (H : List Chunk)
    (hne : ∀ ch ∈ H, ch ≠ []) :
    verify_declared_at E (H.map Except.ok) = some (flatFrom 0 ∅ E H.flatten) := by
  rw [verify_declared_at]
  have := verifyAux_bridge (E.length + H.length + (H.map List.length).sum + 0) 0 ∅ E H []
    (Nat.le_refl _) hne
  simpa using this

/-- C1: every item the declaration matcher emits successfully is declared at
its stated block according to the expected stream, each expected entry being
consumed at most once, and on the first inconsistency the output ends with a
single `UnexpectedClass` carrying the offending class's peer tag, emitted
after all earlier successful items. -/
theorem verify_declared_at_sound (E : List (Nat × Finset Nat)) (H : List Chunk)
    (hne : ∀ ch ∈ H, ch ≠ []) :
    ∃ out, verify_declared_at (E.map Except.ok) (H.map Except.ok) = some out ∧
      (∀ b h, okCount b h out ≤ declCount b h E) ∧
      ∃ n, n ≤ H.flatten.length ∧
        (out = (H.flatten.take n).map Except.ok ∨
         ∃ hn : n < H.flatten.length,
           out = (H.flatten.take n).map Except.ok ++
             [.error (.unexpectedClass (H.flatten.get ⟨n, hn⟩).peer)]) := by
  refine ⟨flatFrom 0 ∅ (E.map Except.ok) H.flatten,
    verify_declared_at_flat _ _ hne, ?_, ?_⟩
  · intro b h
    have := flatFrom_count (E.length + H.flatten.length) 0 ∅ E H.flatten b h (Nat.le_refl _)
    simpa using this
  · exact flatFrom_shape (E.length + H.flatten.length) 0 ∅ E H.flatten (Nat.le_refl _)

/-- Witness for the C1 theorem at a concrete two-block run. -/
theorem verify_declared_at_sound_witness :
    (∀ ch ∈ ([[⟨10, ⟨1, 7, .cairo []⟩⟩], [⟨11, ⟨2, 8, .cairo []⟩⟩]] : List Chunk), ch ≠ []) ∧
    (∃ out,
      verify_declared_at (([(1, {7}), (2, {8})] : List (Nat × Finset Nat)).map Except.ok)
          (([[⟨10, ⟨1, 7, .cairo []⟩⟩], [⟨11, ⟨2, 8, .cairo []⟩⟩]] : List Chunk).map Except.ok) =
        some out ∧
      (∀ b h, okCount b h out ≤
        declCount b h ([(1, {7}), (2, {8})] : List (Nat × Finset Nat))) ∧
      ∃ n, n ≤ ([[⟨10, ⟨1, 7, .cairo []⟩⟩], [⟨11, ⟨2, 8, .cairo []⟩⟩]] : List Chunk).flatten.length ∧
        (out = (([[⟨10, ⟨1, 7, .cairo []⟩⟩], [⟨11, ⟨2, 8, .cairo []⟩⟩]] : List Chunk).flatten.take n).map Except.ok ∨
         ∃ hn : n < ([[⟨10, ⟨1, 7, .cairo []⟩⟩], [⟨11, ⟨2, 8, .cairo []⟩⟩]] : List Chunk).flatten.length,
           out = (([[⟨10, ⟨1, 7, .cairo []⟩⟩], [⟨11, ⟨2, 8, .cairo []⟩⟩]] : List Chunk).flatten.take n).map Except.ok ++
             [.error (.unexpectedClass
               (([[⟨10, ⟨1, 7, .cairo []⟩⟩], [⟨11, ⟨2, 8, .cairo []⟩⟩]] : List Chunk).flatten.get ⟨n, hn⟩).peer)])) :=
  ⟨by decide, verify_declared_at_sound [(1, {7}), (2, {8})]
    [[⟨10, ⟨1, 7, .cairo []⟩⟩], [⟨11, ⟨2, 8, .cairo []⟩⟩]] (by decide)⟩

/-- C2: dechunker invariance: for a fixed expected stream, the matcher's
output on any order-preserving partition of the classes into non-empty chunks
equals its output when the same classes arrive as a single chunk. -/
theorem verify_declared_at_dechunker_invariance (E : List ExpectedItem) (H : List Chunk)
    (hne : ∀ ch ∈ H, ch ≠ []) (hH : H ≠ []) :
    verify_declared_at E (H.map Except.ok) = verify_declared_at E [Except.ok H.flatten] := by
  rw [verify_declared_at_flat E H hne]
  have hflat : H.flatten ≠ [] := by
    cases H with
    | nil => exact absurd rfl hH
    | cons ch rest =>
      have hch := hne ch (by simp)
      cases ch with
      | nil => exact absurd rfl hch
      | cons c cq => simp
  have h2 : verify_declared_at E ([H.flatten].map Except.ok) =
      some (flatFrom 0 ∅ E [H.flatten].flatten) :=
    verify_declared_at_flat E [H.flatten] (by
      intro ch hch
      rw [List.mem_singleton] at hch
      subst hch
      exact hflat)
  simpa using h2.symm

/-- Witness for the C2 theorem: a two-chunk split of one block's classes. -/
theorem verify_declared_at_dechunker_invariance_witness :
    (∀ ch ∈ ([[⟨10, ⟨1, 7, .cairo []⟩⟩], [⟨11, ⟨1, 8, .cairo []⟩⟩]] : List Chunk), ch ≠ []) ∧
    ([[⟨10, ⟨1, 7, .cairo []⟩⟩], [⟨11, ⟨1, 8, .cairo []⟩⟩]] : List Chunk) ≠ [] ∧
    verify_declared_at [Except.ok (1, ({7, 8} : Finset Nat))]
        (([[⟨10, ⟨1, 7, .cairo []⟩⟩], [⟨11, ⟨1, 8, .cairo []⟩⟩]] : List Chunk).map Except.ok) =
      verify_declared_at [Except.ok (1, ({7, 8} : Finset Nat))]
        [Except.ok ([[⟨10, ⟨1, 7, .cairo []⟩⟩], [⟨11, ⟨1, 8, .cairo []⟩⟩]] : List Chunk).flatten] :=
  ⟨by decide, by decide,
    verify_declared_at_dechunker_invariance [Except.ok (1, {7, 8})]
      [[⟨10, ⟨1, 7, .cairo []⟩⟩], [⟨11, ⟨1, 8, .cairo []⟩⟩]] (by decide) (by decide)⟩

/-- C3: when the class stream is exhausted while the current expected set is
still non-empty the matcher terminates normally without emitting an error
item; in particular any truncation of a fully matching delivery still yields
only the delivered items, all successful. -/
theorem verify_declared_at_exhaustion_normal :
    (∀ (b : Nat) (s : Finset Nat) (E : List ExpectedItem), s ≠ ∅ →
       verifyAux b s E [] [] = some []) ∧
    (∀ (E : List ExpectedItem) (p suffix : List (PeerData Class)),
       flatRun E (p ++ suffix) = (p ++ suffix).map Except.ok → p ≠ [] →
       verify_declared_at E [Except.ok p] = some (p.map Except.ok)) := by
  constructor
  · intro b s E hs
    rw [verifyAux.eq_def, if_neg hs]
  · intro E p suffix hclean hp
    have h1 : verify_declared_at E ([p].map Except.ok) = some (flatFrom 0 ∅ E [p].flatten) :=
      verify_declared_at_flat E [p] (by
        intro ch hch
        rw [List.mem_singleton] at hch
        subst hch
        exact hp)
    have h2 : flatFrom 0 ∅ E (p ++ suffix) = (p ++ suffix).map Except.ok := by
      rw [flatFrom_empty _ rfl]
      exact hclean
    have h3 := flatFrom_clean_front (E.length + p.length) 0 ∅ E p suffix (Nat.le_refl _) h2
    simpa [h3] using h1

/-- Witness for the C3 theorem: the peer stream stops after one of two
expected classes, and the matcher ends without an error item. -/
theorem verify_declared_at_exhaustion_normal_witness :
    (({8} : Finset Nat) ≠ ∅ ∧ verifyAux 2 {8} [] [] [] = some []) ∧
    (flatRun [Except.ok (1, ({7, 8} : Finset Nat))]
        (([⟨10, ⟨1, 7, .cairo []⟩⟩] : List (PeerData Class)) ++ ([⟨11, ⟨1, 8, .cairo []⟩⟩] : List (PeerData Class))) =
       ((([⟨10, ⟨1, 7, .cairo []⟩⟩] : List (PeerData Class)) ++ ([⟨11, ⟨1, 8, .cairo []⟩⟩] : List (PeerData Class))).map Except.ok) ∧
     ([⟨10, ⟨1, 7, .cairo []⟩⟩] : List (PeerData Class)) ≠ [] ∧
     verify_declared_at [Except.ok (1, ({7, 8} : Finset Nat))]
         [Except.ok [⟨10, ⟨1, 7, .cairo []⟩⟩]] =
       some (([⟨10, ⟨1, 7, .cairo []⟩⟩] : List (PeerData Class)).map Except.ok)) :=
  ⟨⟨by decide, verify_declared_at_exhaustion_normal.1 2 {8} [] (by decide)⟩,
   ⟨by decide, by decide,
    verify_declared_at_exhaustion_normal.2 [Except.ok (1, {7, 8})]
      [⟨10, ⟨1, 7, .cairo []⟩⟩] [⟨11, ⟨1, 8, .cairo []⟩⟩] (by decide) (by decide)⟩⟩

end ClassSync

namespace ClassSync

theorem lookup_upsert_self {β : Type} (l : List (Nat × β)) (k : Nat) (v : β) :
    (upsert l k v).lookup k = some v := by
  simp [upsert, List.lookup_cons]

theorem lookup_filter_ne {β : Type} (l : List (Nat × β)) {k k' : Nat} (h : k ≠ k') :
    (l.filter (fun p => p.1 ≠ k')).lookup k = l.lookup k := by
  induction l with
  | nil => rfl
  | cons a t ih =>
    obtain ⟨ak, av⟩ := a
    rw [List.filter_cons]
    by_cases hak : ak = k'
    · rw [if_neg (by simp [hak])]
      have hk : (k == ak) = false := beq_eq_false_iff_ne.mpr (fun he => h (hak ▸ he))
      rw [ih, List.lookup_cons, hk]
    · rw [if_pos (by simp [hak])]
      by_cases he : k = ak
      · subst he
        rw [List.lookup_cons, List.lookup_cons, beq_self_eq_true]
      · have hk : (k == ak) = false := beq_eq_false_iff_ne.mpr he
        rw [List.lookup_cons, List.lookup_cons, hk, ih]

theorem lookup_upsert_isSome {β : Type} (l : List (Nat × β)) (k k' : Nat) (v : β)
    (h : (l.lookup k).isSome = true) : ((upsert l k' v).lookup k).isSome = true := by
  by_cases hk : k = k'
  · subst hk
    simp [lookup_upsert_self]
  · have hbeq : (k == k') = false := beq_eq_false_iff_ne.mpr hk
    rw [upsert, List.lookup_cons, hbeq]
    rw [lookup_filter_ne l hk]
    exact h

end ClassSync

namespace ClassSync

theorem persistLoop_casm_hashes : ∀ (l : List CompiledClass) (tx tx2 : Db),
    persistLoop tx l = .ok tx2 → tx2.casm_hashes = tx.casm_hashes := by
  intro l
  induction l with
  | nil =>
    intro tx tx2 h
    simp [persistLoop] at h
    rw [← h]
  | cons c rest ih =>
    intro tx tx2 h
    match hc : c.definition with
    | .cairo d =>
      simp only [persistLoop, hc] at h
      exact ih (update_cairo_class tx c.hash d) tx2 h
    | .sierra sd cd =>
      simp only [persistLoop, hc] at h
      match hm : casm_hash tx c.hash with
      | none => rw [hm] at h; exact absurd h (by simp)
      | some casm =>
        rw [hm] at h
        simp only [] at h
        exact ih (update_sierra_class tx c.hash sd casm cd) tx2 h

theorem persistLoop_missing_mapping : ∀ (l : List CompiledClass) (tx : Db)
    (c : CompiledClass) (sd cd : List Nat), c ∈ l → c.definition = .sierra sd cd →
    casm_hash tx c.hash = none → persistLoop tx l = .error "Casm hash not found" := by
  intro l
  induction l with
  | nil => intro tx c sd cd hmem; exact absurd hmem (List.not_mem_nil c)
  | cons c' rest ih =>
    intro tx c sd cd hmem hdef hnone
    rcases List.mem_cons.mp hmem with he | hmem'
    · subst he
      rw [persistLoop, hdef, hnone]
    · match hc : c'.definition with
      | .cairo d =>
        rw [persistLoop, hc]
        exact ih _ c sd cd hmem' hdef hnone
      | .sierra sd' cd' =>
        rw [persistLoop, hc]
        match hm : casm_hash tx c'.hash with
        | none => rfl
        | some casm => exact ih _ c sd cd hmem' hdef hnone

theorem hasClassDef_update_cairo (db : Db) (c : CompiledClass) (h : Nat) (d : List Nat)
    (hd : hasClassDef db c = true) : hasClassDef (update_cairo_class db h d) c = true := by
  match hc : c.definition with
  | .cairo x =>
    rw [hasClassDef, hc] at hd ⊢
    exact lookup_upsert_isSome _ _ _ _ hd
  | .sierra x y =>
    rw [hasClassDef, hc] at hd ⊢
    exact hd

theorem hasClassDef_update_sierra (db : Db) (c : CompiledClass) (h : Nat)
    (sd : List Nat) (ch : Nat) (cd : List Nat)
    (hd : hasClassDef db c = true) : hasClassDef (update_sierra_class db h sd ch cd) c = true := by
  match hc : c.definition with
  | .cairo x =>
    rw [hasClassDef, hc] at hd ⊢
    exact hd
  | .sierra x y =>
    rw [hasClassDef, hc] at hd ⊢
    exact lookup_upsert_isSome _ _ _ _ hd

theorem persistLoop_mono : ∀ (l : List CompiledClass) (tx tx2 : Db) (c : CompiledClass),
    persistLoop tx l = .ok tx2 → hasClassDef tx c = true → hasClassDef tx2 c = true := by
  intro l
  induction l with
  | nil =>
    intro tx tx2 c h hd
    simp [persistLoop] at h
    rw [← h]
    exact hd
  | cons c' rest ih =>
    intro tx tx2 c h hd
    match hc : c'.definition with
    | .cairo d =>
      rw [persistLoop, hc] at h
      exact ih _ _ c h (hasClassDef_update_cairo _ _ _ _ hd)
    | .sierra sd cd =>
      rw [persistLoop, hc] at h
      match hm : casm_hash tx c'.hash with
      | none => rw [hm] at h; exact absurd h (by simp)
      | some casm =>
        rw [hm] at h
        exact ih _ _ c h (hasClassDef_update_sierra _ _ _ _ _ _ hd)

theorem persistLoop_writes : ∀ (l : List CompiledClass) (tx tx2 : Db),
    persistLoop tx l = .ok tx2 → ∀ c ∈ l, hasClassDef tx2 c = true := by
  intro l
  induction l with
  | nil => intro tx tx2 h c hmem; exact absurd hmem (List.not_mem_nil c)
  | cons c' rest ih =>
    intro tx tx2 h c hmem
    rcases List.mem_cons.mp hmem with he | hmem'
    · subst he
      match hc : c.definition with
      | .cairo d =>
        rw [persistLoop, hc] at h
        refine persistLoop_mono rest _ _ c h ?_
        rw [hasClassDef, hc]
        simp [update_cairo_class, lookup_upsert_self]
      | .sierra sd cd =>
        rw [persistLoop, hc] at h
        match hm : casm_hash tx c.hash with
        | none => rw [hm] at h; exact absurd h (by simp)
        | some casm =>
          rw [hm] at h
          refine persistLoop_mono rest _ _ c h ?_
          rw [hasClassDef, hc]
          simp [update_sierra_class, lookup_upsert_self]
    · match hc : c'.definition with
      | .cairo d =>
        rw [persistLoop, hc] at h
        exact ih _ _ h c hmem'
      | .sierra sd cd =>
        rw [persistLoop, hc] at h
        match hm : casm_hash tx c'.hash with
        | none => rw [hm] at h; exact absurd h (by simp)
        | some casm => rw [hm] at h; exact ih _ _ h c hmem'

end ClassSync

namespace ClassSync

theorem foldl_max_sorted : ∀ (l : List Nat) (acc x : Nat),
    l.Sorted (· ≤ ·) → l.getLast? = some x → acc ≤ x → l.foldl Nat.max acc = x := by
  intro l
  induction l with
  | nil => intro acc x _ h; exact absurd h (by simp)
  | cons a t ih =>
    intro acc x hsort hlast hacc
    cases t with
    | nil =>
      simp at hlast
      subst hlast
      simpa using Nat.max_eq_right hacc
    | cons b t' =>
      rw [List.getLast?_cons_cons] at hlast
      have hmem : x ∈ b :: t' := List.mem_of_mem_getLast? hlast
      have hax : a ≤ x := (List.sorted_cons.mp hsort).1 x hmem
      rw [List.foldl_cons]
      exact ih (Nat.max acc a) x (List.sorted_cons.mp hsort).2 hlast
        (Nat.max_le.mpr ⟨hacc, hax⟩)

/-- C4: persistence is atomic: on any failure — in particular a Sierra class
with no pre-existing casm-hash mapping — the transaction is not committed and
the database equals its pre-call state, while on success every element of the
batch has been written inside the one committed transaction. -/
theorem persist_atomic :
    (∀ (db : Db) (classes : List (PeerData CompiledClass)) (e : String),
       (persist db classes).1 = .error e → (persist db classes).2 = db) ∧
    (∀ (db : Db) (classes : List (PeerData CompiledClass)) (c : PeerData CompiledClass)
       (sd cd : List Nat), c ∈ classes → c.data.definition = .sierra sd cd →
       casm_hash db c.data.hash = none →
       (persist db classes).1 = .error "Casm hash not found" ∧
         (persist db classes).2 = db) ∧
    (∀ (db : Db) (classes : List (PeerData CompiledClass)) (n : Nat),
       (persist db classes).1 = .ok n →
       ∀ c ∈ classes, hasClassDef (persist db classes).2 c.data = true) := by
  refine ⟨?_, ?_, ?_⟩
  · intro db classes e herr
    match hlast : classes.getLast? with
    | none => rw [persist, hlast]
    | some last =>
      rw [persist, hlast] at herr ⊢
      match hl : persistLoop db (classes.map (fun x => x.data)) with
      | .error e2 => rw [hl]
      | .ok tx => rw [hl] at herr; exact absurd herr (by simp)
  · intro db classes c sd cd hmem hdef hnone
    have hloop : persistLoop db (classes.map (fun x => x.data)) =
        .error "Casm hash not found" :=
      persistLoop_missing_mapping _ db c.data sd cd
        (List.mem_map_of_mem (fun x => x.data) hmem) hdef hnone
    match hlast : classes.getLast? with
    | none =>
      rw [List.getLast?_eq_none_iff] at hlast
      subst hlast
      exact absurd hmem (List.not_mem_nil c)
    | some last =>
      rw [persist, hlast, hloop]
      exact ⟨rfl, rfl⟩
  · intro db classes n hok c hmem
    match hlast : classes.getLast? with
    | none =>
      rw [List.getLast?_eq_none_iff] at hlast
      subst hlast
      exact absurd hmem (List.not_mem_nil c)
    | some last =>
      rw [persist, hlast] at hok ⊢
      match hl : persistLoop db (classes.map (fun x => x.data)) with
      | .error e2 => rw [hl] at hok; exact absurd hok (by simp)
      | .ok tx =>
        rw [hl] at hok ⊢
        exact persistLoop_writes _ db tx hl c.data
          (List.mem_map_of_mem (fun x => x.data) hmem)

/-- Witness for the C4 theorem: a Sierra class with no casm mapping fails and
rolls back; a cairo batch commits and is present afterwards. -/
theorem persist_atomic_witness :
    ((persist (⟨[], [], []⟩ : Db) [⟨1, ⟨5, 8, .sierra [1] [2]⟩⟩]).1 =
        .error "Casm hash not found" ∧
      (persist (⟨[], [], []⟩ : Db) [⟨1, ⟨5, 8, .sierra [1] [2]⟩⟩]).2 = ⟨[], [], []⟩) ∧
    (persist (⟨[], [], []⟩ : Db) [⟨1, ⟨5, 8, .sierra [1] [2]⟩⟩]).2 = ⟨[], [], []⟩ ∧
    (∀ c ∈ ([⟨1, ⟨5, 3, .cairo [1]⟩⟩] : List (PeerData CompiledClass)),
       hasClassDef (persist (⟨[], [], []⟩ : Db) [⟨1, ⟨5, 3, .cairo [1]⟩⟩]).2 c.data = true) :=
  ⟨persist_atomic.2.1 ⟨[], [], []⟩ [⟨1, ⟨5, 8, .sierra [1] [2]⟩⟩]
      ⟨1, ⟨5, 8, .sierra [1] [2]⟩⟩ [1] [2] (by decide) (by decide) (by decide),
   persist_atomic.1 ⟨[], [], []⟩ [⟨1, ⟨5, 8, .sierra [1] [2]⟩⟩]
      "Casm hash not found" (by decide),
   persist_atomic.2.2 ⟨[], [], []⟩ [⟨1, ⟨5, 3, .cairo [1]⟩⟩] 5 (by decide)⟩

/-- C8 counterexample: a successful batch whose block numbers are not in
ascending order returns the last element's block number (3), which is not the
batch maximum (5). -/
theorem persist_last_not_max :
    (persist (⟨[], [], []⟩ : Db)
        [⟨1, ⟨5, 3, .cairo [1]⟩⟩, ⟨2, ⟨3, 4, .cairo [2]⟩⟩]).1 = .ok 3 ∧
    batchMax [⟨1, ⟨5, 3, .cairo [1]⟩⟩, ⟨2, ⟨3, 4, .cairo [2]⟩⟩] = 5 ∧
    (3 : Nat) ≠ 5 := by
  decide

/-- C8 amended: on success `persist` returns the block number of the batch's
last element; when the batch's block numbers are in ascending order this is
the batch maximum. -/
theorem persist_returns_last_block (db : Db) (classes : List (PeerData CompiledClass))
    (n : Nat) (c : PeerData CompiledClass)
    (hok : (persist db classes).1 = .ok n) (hlast : classes.getLast? = some c) :
    n = c.data.block_number ∧
      ((classes.map (fun x => x.data.block_number)).Sorted (· ≤ ·) →
        n = batchMax classes) := by
  rw [persist, hlast] at hok
  match hl : persistLoop db (classes.map (fun x => x.data)) with
  | .error e => rw [hl] at hok; exact absurd hok (by simp)
  | .ok tx =>
    rw [hl] at hok
    simp only [Except.ok.injEq] at hok
    refine ⟨hok.symm, fun hsort => ?_⟩
    rw [batchMax]
    have hlast2 : (classes.map (fun x => x.data.block_number)).getLast? =
        some c.data.block_number := by
      rw [List.getLast?_map, hlast]
      rfl
    rw [foldl_max_sorted _ 0 c.data.block_number hsort hlast2 (Nat.zero_le _)]
    exact hok.symm

/-- Witness for the C8 amended theorem at a sorted two-element batch. -/
theorem persist_returns_last_block_witness :
    (persist (⟨[], [], []⟩ : Db)
        [⟨1, ⟨3, 3, .cairo [1]⟩⟩, ⟨2, ⟨5, 4, .cairo [2]⟩⟩]).1 = .ok 5 ∧
    ([⟨1, ⟨3, 3, .cairo [1]⟩⟩, ⟨2, ⟨5, 4, .cairo [2]⟩⟩] :
        List (PeerData CompiledClass)).getLast? = some ⟨2, ⟨5, 4, .cairo [2]⟩⟩ ∧
    ((5 : Nat) = (⟨2, ⟨5, 4, .cairo [2]⟩⟩ : PeerData CompiledClass).data.block_number ∧
      ((([⟨1, ⟨3, 3, .cairo [1]⟩⟩, ⟨2, ⟨5, 4, .cairo [2]⟩⟩] :
          List (PeerData CompiledClass)).map (fun x => x.data.block_number)).Sorted (· ≤ ·) →
        5 = batchMax [⟨1, ⟨3, 3, .cairo [1]⟩⟩, ⟨2, ⟨5, 4, .cairo [2]⟩⟩])) :=
  ⟨by decide, by decide,
   persist_returns_last_block ⟨[], [], []⟩
     [⟨1, ⟨3, 3, .cairo [1]⟩⟩, ⟨2, ⟨5, 4, .cairo [2]⟩⟩] 5 ⟨2, ⟨5, 4, .cairo [2]⟩⟩
     (by decide) (by decide)⟩

/-- C10: persisting an empty batch returns the contexted error and leaves the
database unchanged: the transaction is never committed. -/
theorem persist_empty_batch (db : Db) :
    persist db [] = (.error "No class definitions to persist", db) := rfl

end ClassSync

namespace ClassSync

theorem edsLoop_no_missing (db : DeclaredAt) : ∀ L : List Nat,
    (∀ b ∈ L, db b ≠ none) → edsLoop db L = L.filterMap (edsItem db) := by
  intro L
  induction L with
  | nil => intro _; rfl
  | cons b rest ih =>
    intro hp
    match hb : db b with
    | none => exact absurd hb (hp b (by simp))
    | some l =>
      simp only [edsLoop, hb, List.filterMap_cons, edsItem]
      by_cases he : l.toFinset = ∅
      · simp only [if_pos he, List.nil_append]
        exact ih (fun x hx => hp x (by simp [hx]))
      · simp only [if_neg he, List.singleton_append]
        rw [ih (fun x hx => hp x (by simp [hx]))]

theorem edsLoop_missing (db : DeclaredAt) (m : Nat) (L2 : List Nat) (hm : db m = none) :
    ∀ L1 : List Nat, (∀ b ∈ L1, db b ≠ none) →
    edsLoop db (L1 ++ m :: L2) =
      L1.filterMap (edsItem db) ++ [.error "Block header not found"] := by
  intro L1
  induction L1 with
  | nil =>
    intro _
    rw [List.nil_append]
    simp only [edsLoop, hm]
    rfl
  | cons b rest ih =>
    intro hp
    match hb : db b with
    | none => exact absurd hb (hp b (by simp))
    | some l =>
      rw [List.cons_append]
      simp only [edsLoop, hb, List.filterMap_cons, edsItem]
      by_cases he : l.toFinset = ∅
      · simp only [if_pos he, List.nil_append]
        exact ih (fun x hx => hp x (by simp [hx]))
      · simp only [if_neg he, List.singleton_append]
        rw [ih (fun x hx => hp x (by simp [hx])), List.cons_append]

theorem edsLoop_blocks_sublist (db : DeclaredAt) : ∀ L : List Nat,
    ((edsLoop db L).filterMap okBlock).Sublist L := by
  intro L
  induction L with
  | nil => simp [edsLoop]
  | cons b rest ih =>
    match hb : db b with
    | none =>
      simp only [edsLoop, hb]
      simp [okBlock]
    | some l =>
      simp only [edsLoop, hb]
      by_cases he : l.toFinset = ∅
      · simp only [if_pos he, List.nil_append]
        exact ih.cons b
      · simp only [if_neg he, List.singleton_append, List.filterMap_cons, okBlock]
        exact ih.cons₂ b

theorem edsLoop_sets_nonempty (db : DeclaredAt) : ∀ L : List Nat,
    ∀ r ∈ edsLoop db L, ∀ b s, r = .ok (b, s) → s ≠ ∅ := by
  intro L
  induction L with
  | nil => intro r hr; exact absurd hr (List.not_mem_nil r)
  | cons b0 rest ih =>
    intro r hr b s hre
    match hb : db b0 with
    | none =>
      simp only [edsLoop, hb] at hr
      rw [List.mem_singleton] at hr
      subst hr
      exact absurd hre (by simp)
    | some l =>
      simp only [edsLoop, hb] at hr
      by_cases he : l.toFinset = ∅
      · rw [if_pos he, List.nil_append] at hr
        exact ih r hr b s hre
      · rw [if_neg he, List.singleton_append, List.mem_cons] at hr
        rcases hr with hr | hr
        · subst hr
          have hs : s = l.toFinset := by
            have h2 := Except.ok.inj hre.symm
            exact ((Prod.mk.injEq .. ▸ h2).2).symm.symm
          rw [hs]
          exact he
        · exact ih r hr b s hre

end ClassSync

namespace ClassSync

/-- C6: the expected-declarations stream visits `[start, stop]` in strictly
ascending block order emitting only non-empty declared sets; when every
header is present it emits exactly one item per block with a non-empty
declared set (empty blocks skipped, no error); and the first missing block
header makes it emit the items of the earlier blocks followed by the fatal
`Block header not found` item, after which the stream terminates. -/
theorem expected_declarations_stream_contract (db : DeclaredAt) (start stop : Nat) :
    (((expected_declarations_stream db start stop).filterMap okBlock).Pairwise (· < ·) ∧
     (∀ r ∈ expected_declarations_stream db start stop, ∀ b s, r = .ok (b, s) → s ≠ ∅)) ∧
    ((∀ b ∈ List.range' start (stop + 1 - start), db b ≠ none) →
      expected_declarations_stream db start stop =
        (List.range' start (stop + 1 - start)).filterMap (edsItem db)) ∧
    (∀ m, start ≤ m → m ≤ stop → db m = none →
      (∀ b ∈ List.range' start (m - start), db b ≠ none) →
      expected_declarations_stream db start stop =
        (List.range' start (m - start)).filterMap (edsItem db) ++
          [.error "Block header not found"]) := by
  refine ⟨⟨?_, ?_⟩, ?_, ?_⟩
  · exact List.Pairwise.sublist (edsLoop_blocks_sublist db _)
      (List.pairwise_lt_range' start (stop + 1 - start))
  · exact edsLoop_sets_nonempty db _
  · exact edsLoop_no_missing db _
  · intro m hsm hms hm hpresent
    have e1 : start + 1 * (m - start) = m := by omega
    have e2 : (stop + 1 - m) + (m - start) = stop + 1 - start := by omega
    have e3 : stop + 1 - m = (stop - m) + 1 := by omega
    have hsplit := List.range'_append start (m - start) (stop + 1 - m) 1
    rw [e1, e2, e3, List.range'_succ] at hsplit
    rw [expected_declarations_stream, ← hsplit]
    exact edsLoop_missing db m _ hm _ hpresent

/-- Witness for the C6 theorem: a fully present range with an empty block,
and a range whose third block is missing its header. -/
theorem expected_declarations_stream_contract_witness :
    (((expected_declarations_stream
        (fun b => if b = 2 then some [] else some [b]) 1 3).filterMap okBlock).Pairwise
          (· < ·) ∧
     (∀ r ∈ expected_declarations_stream (fun b => if b = 2 then some [] else some [b]) 1 3,
        ∀ b s, r = .ok (b, s) → s ≠ ∅)) ∧
    ((∀ b ∈ List.range' 1 (3 + 1 - 1),
        (fun b => if b = 2 then some [] else some [b]) b ≠ none) ∧
      expected_declarations_stream (fun b => if b = 2 then some [] else some [b]) 1 3 =
        (List.range' 1 (3 + 1 - 1)).filterMap
          (edsItem (fun b => if b = 2 then some [] else some [b]))) ∧
    ((1 : Nat) ≤ 3 ∧ (3 : Nat) ≤ 4 ∧
      (fun b => if b = 3 then none else some [b]) 3 = none ∧
      (∀ b ∈ List.range' 1 (3 - 1),
        (fun b => if b = 3 then none else some [b]) b ≠ none) ∧
      expected_declarations_stream (fun b => if b = 3 then none else some [b]) 1 4 =
        (List.range' 1 (3 - 1)).filterMap
          (edsItem (fun b => if b = 3 then none else some [b])) ++
          [.error "Block header not found"]) :=
  ⟨⟨(expected_declarations_stream_contract (fun b => if b = 2 then some [] else some [b]) 1 3).1.1,
    (expected_declarations_stream_contract (fun b => if b = 2 then some [] else some [b]) 1 3).1.2⟩,
   ⟨by decide,
    (expected_declarations_stream_contract (fun b => if b = 2 then some [] else some [b]) 1 3).2.1
      (by decide)⟩,
   ⟨by decide, by decide, by decide, by decide,
    (expected_declarations_stream_contract (fun b => if b = 3 then none else some [b]) 1 4).2.2
      3 (by decide) (by decide) (by decide) (by decide)⟩⟩

end ClassSync

namespace ClassSync

theorem cairoHashes_cons_cairo {c : CompiledClass} {d : List Nat}
    (hc : c.definition = .cairo d) (rest : List CompiledClass) :
    cairoHashes (c :: rest) = c.hash :: cairoHashes rest := by
  simp [cairoHashes, List.filter_cons, hc]

theorem cairoHashes_cons_sierra {c : CompiledClass} {sd cd : List Nat}
    (hc : c.definition = .sierra sd cd) (rest : List CompiledClass) :
    cairoHashes (c :: rest) = cairoHashes rest := by
  simp [cairoHashes, List.filter_cons, hc]

theorem sierraHashes_cons_cairo {c : CompiledClass} {d : List Nat}
    (hc : c.definition = .cairo d) (rest : List CompiledClass) :
    sierraHashes (c :: rest) = sierraHashes rest := by
  simp [sierraHashes, List.filter_cons, hc]

theorem sierraHashes_cons_sierra {c : CompiledClass} {sd cd : List Nat}
    (hc : c.definition = .sierra sd cd) (rest : List CompiledClass) :
    sierraHashes (c :: rest) = c.hash :: sierraHashes rest := by
  simp [sierraHashes, List.filter_cons, hc]

theorem mapRemove_none : ∀ (m : List (Nat × Nat)) (k : Nat),
    (mapRemove m k).1 = none ↔ k ∉ m.map Prod.fst := by
  intro m k
  induction m with
  | nil => simp [mapRemove]
  | cons a t ih =>
    obtain ⟨ak, av⟩ := a
    by_cases hk : ak = k
    · subst hk
      simp [mapRemove]
    · rw [mapRemove, if_neg hk]
      show (mapRemove t k).1 = none ↔ _
      rw [ih]
      simp [Ne.symm hk]

theorem mapRemove_some : ∀ (m : List (Nat × Nat)) (k : Nat) (v : Nat),
    (mapRemove m k).1 = some v →
    k ∈ m.map Prod.fst ∧
      (((mapRemove m k).2.map Prod.fst : List Nat) : Multiset Nat) =
        ((m.map Prod.fst : List Nat) : Multiset Nat).erase k := by
  intro m
  induction m with
  | nil => intro k v h; exact absurd h (by simp [mapRemove])
  | cons a t ih =>
    intro k v h
    obtain ⟨ak, av⟩ := a
    by_cases hk : ak = k
    · subst hk
      rw [mapRemove, if_pos rfl] at h
      refine ⟨by simp, ?_⟩
      rw [mapRemove, if_pos rfl]
      simp [Multiset.erase_cons_head]
    · rw [mapRemove, if_neg hk] at h
      simp only at h
      obtain ⟨hmem, hms⟩ := ih k v h
      constructor
      · simp [hmem]
      · rw [mapRemove, if_neg hk]
        show ((((ak, av) :: (mapRemove t k).2).map Prod.fst : List Nat) : Multiset Nat) = _
        rw [List.map_cons, List.map_cons, ← Multiset.cons_coe, ← Multiset.cons_coe,
          Multiset.erase_cons_tail _ hk, hms]

end ClassSync

namespace ClassSync

theorem vchLoop_multiset : ∀ (input : List CompiledClass) (decl left : DeclaredClasses),
    vchLoop decl input = some left →
    ((cairoHashes input : List Nat) : Multiset Nat) + ((left.cairo : List Nat) : Multiset Nat) =
      ((decl.cairo : List Nat) : Multiset Nat) ∧
    ((sierraHashes input : List Nat) : Multiset Nat) +
        ((left.sierra.map Prod.fst : List Nat) : Multiset Nat) =
      ((decl.sierra.map Prod.fst : List Nat) : Multiset Nat) := by
  intro input
  induction input with
  | nil =>
    intro decl left h
    simp [vchLoop] at h
    subst h
    simp [cairoHashes, sierraHashes]
  | cons c rest ih =>
    intro decl left h
    match hc : c.definition with
    | .cairo d =>
      simp only [vchLoop, hc] at h
      by_cases hmem : c.hash ∈ decl.cairo
      · rw [if_pos hmem] at h
        obtain ⟨h1, h2⟩ := ih _ _ h
        rw [cairoHashes_cons_cairo hc rest, sierraHashes_cons_cairo hc rest]
        refine ⟨?_, h2⟩
        rw [← Multiset.cons_coe, Multiset.cons_add, h1, ← Multiset.coe_erase]
        exact Multiset.cons_erase (by exact_mod_cast hmem)
      · rw [if_neg hmem] at h
        exact absurd h (by simp)
    | .sierra sd cd =>
      simp only [vchLoop, hc] at h
      match hr : (mapRemove decl.sierra c.hash).1 with
      | none =>
        rw [hr] at h
        exact absurd h (by simp)
      | some v =>
        rw [hr] at h
        simp only [] at h
        obtain ⟨hmem, hkeys⟩ := mapRemove_some _ _ _ hr
        obtain ⟨h1, h2⟩ := ih _ _ h
        rw [cairoHashes_cons_sierra hc rest, sierraHashes_cons_sierra hc rest]
        refine ⟨h1, ?_⟩
        rw [← Multiset.cons_coe, Multiset.cons_add, h2, hkeys]
        exact Multiset.cons_erase (by exact_mod_cast hmem)

theorem vchLoop_complete : ∀ (input : List CompiledClass) (decl : DeclaredClasses),
    ((cairoHashes input : List Nat) : Multiset Nat) =
      ((decl.cairo : List Nat) : Multiset Nat) →
    ((sierraHashes input : List Nat) : Multiset Nat) =
      ((decl.sierra.map Prod.fst : List Nat) : Multiset Nat) →
    vchLoop decl input = some ⟨[], []⟩ := by
  intro input
  induction input with
  | nil =>
    intro decl h1 h2
    simp only [cairoHashes, List.filter_nil, List.map_nil] at h1
    simp only [sierraHashes, List.filter_nil, List.map_nil] at h2
    rw [Multiset.coe_nil] at h1 h2
    have hc : decl.cairo = [] := (Multiset.coe_eq_zero _).mp h1.symm
    have hs : decl.sierra = [] :=
      List.map_eq_nil_iff.mp ((Multiset.coe_eq_zero _).mp h2.symm)
    obtain ⟨dc, ds⟩ := decl
    have hc2 : dc = [] := hc
    have hs2 : ds = [] := hs
    subst hc2
    subst hs2
    rfl
  | cons c rest ih =>
    intro decl h1 h2
    match hc : c.definition with
    | .cairo d =>
      rw [cairoHashes_cons_cairo hc rest] at h1
      rw [sierraHashes_cons_cairo hc rest] at h2
      have hmem : c.hash ∈ decl.cairo := by
        have hm2 : c.hash ∈ ((decl.cairo : List Nat) : Multiset Nat) := by
          rw [← h1, ← Multiset.cons_coe]
          exact Multiset.mem_cons_self _ _
        exact_mod_cast hm2
      have h1a : ((cairoHashes rest : List Nat) : Multiset Nat) =
          ((decl.cairo.erase c.hash : List Nat) : Multiset Nat) := by
        rw [← Multiset.coe_erase, ← h1, ← Multiset.cons_coe, Multiset.erase_cons_head]
      simp only [vchLoop, hc, if_pos hmem]
      exact ih ⟨decl.cairo.erase c.hash, decl.sierra⟩ h1a h2
    | .sierra sd cd =>
      rw [cairoHashes_cons_sierra hc rest] at h1
      rw [sierraHashes_cons_sierra hc rest] at h2
      have hmem : c.hash ∈ decl.sierra.map Prod.fst := by
        have hm2 : c.hash ∈ ((decl.sierra.map Prod.fst : List Nat) : Multiset Nat) := by
          rw [← h2, ← Multiset.cons_coe]
          exact Multiset.mem_cons_self _ _
        exact_mod_cast hm2
      match hr : (mapRemove decl.sierra c.hash).1 with
      | none => exact absurd ((mapRemove_none _ _).mp hr) (fun hn => hn hmem)
      | some v =>
        obtain ⟨-, hkeys⟩ := mapRemove_some _ _ _ hr
        have h2a : ((sierraHashes rest : List Nat) : Multiset Nat) =
            (((mapRemove decl.sierra c.hash).2.map Prod.fst : List Nat) : Multiset Nat) := by
          rw [hkeys, ← h2, ← Multiset.cons_coe, Multiset.erase_cons_head]
        simp only [vchLoop, hc, hr]
        exact ih ⟨decl.cairo, (mapRemove decl.sierra c.hash).2⟩ h1 h2a

end ClassSync

namespace ClassSync

/-- C9 counterexample: for a leftover sierra entry `(5, 9)` the diagnostic
list carries the map value `9` (the compiled-class hash), while the unmatched
class identifier of that entry is its key `5`. -/
theorem verify_class_hashes_values_not_keys :
    verify_class_hashes ⟨[], [(5, 9)]⟩ [] = .error (some [9]) ∧
    specUnmatchedIdentifiers ⟨[], [(5, 9)]⟩ = [5] ∧ ([9] : List Nat) ≠ [5] := by
  decide

/-- C9 amended: the batch matcher consumes one `DeclaredClasses` value and
removes the matching entry for each input class; it returns the input
unchanged exactly when every input class had a matching entry and both
containers end empty — equivalently, when the batch's cairo hashes are
exactly the declared cairo set and its sierra hashes exactly the declared
map's keys, as multisets. Otherwise it returns the mismatch error, whose
end-of-batch diagnostic lists the leftover cairo hashes together with the
leftover sierra map values (compiled-class hashes), not the unmatched class
identifiers. -/
theorem verify_class_hashes_contract (decl : DeclaredClasses) (input : List CompiledClass) :
    (∀ out, verify_class_hashes decl input = .ok out → out = input) ∧
    (verify_class_hashes decl input = .ok input ↔
      (((cairoHashes input : List Nat) : Multiset Nat) =
          ((decl.cairo : List Nat) : Multiset Nat) ∧
       ((sierraHashes input : List Nat) : Multiset Nat) =
          ((decl.sierra.map Prod.fst : List Nat) : Multiset Nat))) ∧
    (∀ left, vchLoop decl input = some left → ¬(left.cairo = [] ∧ left.sierra = []) →
      verify_class_hashes decl input =
        .error (some (left.cairo ++ left.sierra.map (fun p => p.2)))) := by
  refine ⟨?_, ⟨?_, ?_⟩, ?_⟩
  · intro out hok
    match hv : vchLoop decl input with
    | none =>
      rw [verify_class_hashes, hv] at hok
      exact absurd hok (by simp)
    | some left =>
      rw [verify_class_hashes, hv] at hok
      simp only [] at hok
      by_cases hemp : left.cairo = [] ∧ left.sierra = []
      · rw [if_pos hemp] at hok
        exact (Except.ok.inj hok).symm
      · rw [if_neg hemp] at hok
        exact absurd hok (by simp)
  · intro hok
    match hv : vchLoop decl input with
    | none =>
      rw [verify_class_hashes, hv] at hok
      exact absurd hok (by simp)
    | some left =>
      rw [verify_class_hashes, hv] at hok
      simp only [] at hok
      by_cases hemp : left.cairo = [] ∧ left.sierra = []
      · obtain ⟨ha, hb⟩ := vchLoop_multiset input decl left hv
        rw [hemp.1] at ha
        rw [hemp.2] at hb
        constructor
        · simpa using ha
        · simpa using hb
      · rw [if_neg hemp] at hok
        exact absurd hok (by simp)
  · intro hmss
    rw [verify_class_hashes, vchLoop_complete input decl hmss.1 hmss.2]
    simp
  · intro left hv hne
    rw [verify_class_hashes, hv]
    simp only []
    rw [if_neg hne]

/-- Witness for the C9 amended theorem: a fully matching batch and a batch
leaving a sierra entry unmatched. -/
theorem verify_class_hashes_contract_witness :
    (verify_class_hashes ⟨[3], [(5, 9)]⟩
        [⟨1, 3, .cairo []⟩, ⟨1, 5, .sierra [] []⟩] =
        .ok [⟨1, 3, .cairo []⟩, ⟨1, 5, .sierra [] []⟩] ∧
      ((cairoHashes [⟨1, 3, .cairo []⟩, ⟨1, 5, .sierra [] []⟩] : List Nat) : Multiset Nat) =
          (([3] : List Nat) : Multiset Nat) ∧
      ((sierraHashes [⟨1, 3, .cairo []⟩, ⟨1, 5, .sierra [] []⟩] : List Nat) : Multiset Nat) =
          ((([(5, 9)] : List (Nat × Nat)).map Prod.fst : List Nat) : Multiset Nat)) ∧
    (vchLoop ⟨[], [(5, 9)]⟩ [] = some ⟨[], [(5, 9)]⟩ ∧
      verify_class_hashes ⟨[], [(5, 9)]⟩ [] =
        .error (some (([] : List Nat) ++ ([(5, 9)] : List (Nat × Nat)).map (fun p => p.2)))) :=
  ⟨⟨by decide,
    (verify_class_hashes_contract ⟨[3], [(5, 9)]⟩
      [⟨1, 3, .cairo []⟩, ⟨1, 5, .sierra [] []⟩]).2.1.mp (by decide)⟩,
   ⟨by decide,
    (verify_class_hashes_contract ⟨[], [(5, 9)]⟩ []).2.2 ⟨[], [(5, 9)]⟩
      (by decide) (by decide)⟩⟩

end ClassSync

namespace ClassSync

/-- C5: compiler policy: a legacy (cairo) class passes through with its
definition unchanged; a Sierra class is compiled locally first, on local
failure the compiled form is fetched from the gateway keyed by the class
hash and used verbatim, and an error is surfaced only when both local
compilation and the gateway fetch fail. -/
theorem compile_sierra_to_casm_policy
    (compile_to_casm : List Nat → Except String (List Nat))
    (pending_casm_by_hash : Nat → Except String (List Nat))
    (bn h : Nat) :
    (∀ c : List Nat,
      compile_sierra_to_casm compile_to_casm pending_casm_by_hash ⟨bn, h, .cairo c⟩ =
        .ok ⟨bn, h, .cairo c⟩) ∧
    (∀ sd cd : List Nat, compile_to_casm sd = .ok cd →
      compile_sierra_to_casm compile_to_casm pending_casm_by_hash ⟨bn, h, .sierra sd⟩ =
        .ok ⟨bn, h, .sierra sd cd⟩) ∧
    (∀ (sd g : List Nat) (e : String), compile_to_casm sd = .error e →
      pending_casm_by_hash h = .ok g →
      compile_sierra_to_casm compile_to_casm pending_casm_by_hash ⟨bn, h, .sierra sd⟩ =
        .ok ⟨bn, h, .sierra sd g⟩) ∧
    (∀ (sd : List Nat) (e1 e2 : String), compile_to_casm sd = .error e1 →
      pending_casm_by_hash h = .error e2 →
      compile_sierra_to_casm compile_to_casm pending_casm_by_hash ⟨bn, h, .sierra sd⟩ =
        .error e2) := by
  refine ⟨fun c => rfl, fun sd cd hc => ?_, fun sd g e hc hg => ?_, fun sd e1 e2 hc hg => ?_⟩
  · simp [compile_sierra_to_casm, hc]
  · simp [compile_sierra_to_casm, hc, hg]
  · simp [compile_sierra_to_casm, hc, hg]

/-- Witness for the C5 theorem with a concrete compiler and gateway. -/
theorem compile_sierra_to_casm_policy_witness :
    (compile_sierra_to_casm
        (fun l => if l = [1] then .ok [5] else .error "cc")
        (fun k => if k = 9 then .ok [7] else .error "gw") ⟨4, 9, .cairo [2]⟩ =
      .ok ⟨4, 9, .cairo [2]⟩) ∧
    ((fun l => if l = [1] then (.ok [5] : Except String (List Nat)) else .error "cc") [1] =
        .ok [5] ∧
      compile_sierra_to_casm
        (fun l => if l = [1] then .ok [5] else .error "cc")
        (fun k => if k = 9 then .ok [7] else .error "gw") ⟨4, 9, .sierra [1]⟩ =
      .ok ⟨4, 9, .sierra [1] [5]⟩) ∧
    ((fun l => if l = [1] then (.ok [5] : Except String (List Nat)) else .error "cc") [3] =
        .error "cc" ∧
      (fun k => if k = 9 then (.ok [7] : Except String (List Nat)) else .error "gw") 9 =
        .ok [7] ∧
      compile_sierra_to_casm
        (fun l => if l = [1] then .ok [5] else .error "cc")
        (fun k => if k = 9 then .ok [7] else .error "gw") ⟨4, 9, .sierra [3]⟩ =
      .ok ⟨4, 9, .sierra [3] [7]⟩) ∧
    (compile_sierra_to_casm
        (fun l => if l = [1] then .ok [5] else .error "cc")
        (fun k => if k = 9 then .ok [7] else .error "gw") ⟨4, 8, .sierra [3]⟩ =
      .error "gw") :=
  ⟨(compile_sierra_to_casm_policy _ _ 4 9).1 [2],
   ⟨by decide, (compile_sierra_to_casm_policy _ _ 4 9).2.1 [1] [5] (by decide)⟩,
   ⟨by decide, by decide,
    (compile_sierra_to_casm_policy _ _ 4 9).2.2.1 [3] [7] "cc" (by decide) (by decide)⟩,
   (compile_sierra_to_casm_policy _ _ 4 8).2.2.2 [3] "cc" "gw" (by decide) (by decide)⟩

/-- C7 (code bug): a failing class-hash computation in the batch stage makes
the source panic via `expect("todo fixme add error type")` — modelled as a
`none` result — instead of returning a `ClassHashComputation` error value
with the peer tag; a fully succeeding batch is returned in order. -/
theorem compute_hash_panics_on_failure :
    compute_hash (fun _ => .ok 1) (fun _ => .error "bad")
      [⟨7, ⟨3, .sierra [0], .sierra [0]⟩⟩] = none ∧
    compute_hash (fun _ => .ok 1) (fun _ => .ok 2)
      [⟨7, ⟨3, .sierra [0], .sierra [0]⟩⟩] = some [⟨7, ⟨3, 2, .sierra [0]⟩⟩] := by
  decide

end ClassSync
